import Mathlib

/-!
# Verification of the budzend game-platform backend

Shallow embedding of the wallet ledger, settlement, matchmaking, deposit
confirmation, and the Memory / Ludo / Snakes & Ladders engines of the
budzend backend, together with theorems settling the frozen claims about
its specification.

Money amounts are embedded as `Rat` (the source stores two-fractional-digit
decimals and computes with JS numbers; every constant appearing in the
claims is exactly representable).  Database rows are association lists,
and each service method becomes a pure state-passing function.
-/

/-- Transaction kinds used by `walletService` (`type` column). -/
inductive TxnType where
  | DEPOSIT
  | WITHDRAWAL
  | GAME_ENTRY
  | GAME_WINNING
  | REFUND
deriving DecidableEq, Repr

/-- Transaction statuses used by `walletService` (`status` column). -/
inductive TxnStatus where
  | PENDING
  | COMPLETED
  | FAILED
  | CANCELLED
deriving DecidableEq, Repr

/-- One row of the `transaction` table, restricted to the columns the
verified code paths read or write (free-text descriptions are omitted). -/
structure Transact where
  userId : String
  type : TxnType
  amount : Rat
  status : TxnStatus
  gameId : Option String := none
  razorpayOrderId : Option String := none
  razorpayPaymentId : Option String := none
  razorpaySignature : Option String := none
deriving DecidableEq, Repr

/-- The wallet/ledger database: `wallets` is the `wallet` table as an
association list `(userId, balance)` (a row is present iff the wallet
exists), `ledger` is the append-only `transaction` table. -/
structure WalletDb where
  wallets : List (String × Rat)
  ledger : List Transact
deriving DecidableEq, Repr

/-- `prisma.wallet.findUnique({where:{userId}})`. -/
def findWallet (db : WalletDb) (userId : String) : Option Rat :=
  (db.wallets.find? (fun p => p.1 == userId)).map Prod.snd

/-- `walletService.getWallet`: returns the wallet balance, creating the
wallet with balance 0 when no row exists. -/
def getWallet (db : WalletDb) (userId : String) : Rat × WalletDb :=
  match findWallet db userId with
  | some b => (b, db)
  | none => (0, { db with wallets := db.wallets ++ [(userId, 0)] })

/-- `walletService.getWalletBalance`. -/
def getWalletBalance (db : WalletDb) (userId : String) : Rat :=
  (getWallet db userId).1

/-- Balance increment applied by `tx.wallet.update({data:{balance:{increment}}})`. -/
def bumpWallet (ws : List (String × Rat)) (userId : String) (d : Rat) :
    List (String × Rat) :=
  ws.map (fun p => if p.1 == userId then (p.1, p.2 + d) else p)

/-- `walletService.creditWallet`: ensures the wallet exists, then (in one
storage transaction) appends a COMPLETED ledger row and increments the
balance. -/
def creditWallet (db : WalletDb) (userId : String) (amount : Rat)
    (ty : TxnType) (gameId : Option String) : WalletDb :=
  let db1 := (getWallet db userId).2
  { wallets := bumpWallet db1.wallets userId amount,
    ledger := db1.ledger ++
      [{ userId := userId, type := ty, amount := amount,
         status := .COMPLETED, gameId := gameId }] }

/-- `walletService.deductWallet`: returns `false` (with the state after the
`getWallet` side effect) on insufficient balance, otherwise appends a
COMPLETED ledger row and decrements the balance.  The source signals the
failure through `{success:false}`, not an exception. -/
def deductWallet (db : WalletDb) (userId : String) (amount : Rat)
    (ty : TxnType) (gameId : Option String) : Bool × WalletDb :=
  let r := getWallet db userId
  if r.1 < amount then (false, r.2)
  else
    (true,
      { wallets := bumpWallet r.2.wallets userId (-amount),
        ledger := r.2.ledger ++
          [{ userId := userId, type := ty, amount := amount,
             status := .COMPLETED, gameId := gameId }] })

/-- `walletService.deductGameEntry`: a GAME_ENTRY deduction keyed to the game. -/
def deductGameEntry (db : WalletDb) (userId : String) (amount : Rat)
    (gameId : String) : Bool × WalletDb :=
  deductWallet db userId amount .GAME_ENTRY (some gameId)

/-- Game statuses (`game.status` column). -/
inductive GStatus where
  | WAITING
  | PLAYING
  | FINISHED
  | CANCELLED
deriving DecidableEq, Repr

/-- One row of the `game` table, restricted to the columns settlement and
matchmaking read. -/
structure GameRow where
  id : String
  maxPlayers : Nat
  entryFee : Rat
  prizePool : Rat
  status : GStatus
  winner : Option String := none
deriving DecidableEq, Repr

/-- `gameService.getGameById` over an in-memory `game` table. -/
def getGameById (games : List GameRow) (gameId : String) : Option GameRow :=
  games.find? (fun g => g.id == gameId)

/-- The prize pool stored by `matchmakingService.createGame`:
`totalEntryFees * 0.9` where `totalEntryFees = entryFee * playersToMatch`. -/
def matchPrizePool (entryFee : Rat) (playersToMatch : Nat) : Rat :=
  (entryFee * playersToMatch) * (9 / 10)

/-- `gameService.processGameWinnings`: if the game is FINISHED with a
winner, credits the winner `game.prizePool * 0.9` as a GAME_WINNING entry
keyed to the game; otherwise does nothing. -/
def processGameWinnings (games : List GameRow) (db : WalletDb)
    (gameId : String) : WalletDb :=
  match getGameById games gameId with
  | none => db
  | some g =>
    if g.status = .FINISHED then
      match g.winner with
      | some w => creditWallet db w (g.prizePool * (9 / 10)) .GAME_WINNING (some gameId)
      | none => db
    else db

/-- `MemoryGameService.safeProcessWinnings`: skips settlement when the game
id is already in the `processedWinnings` set, otherwise records it and runs
`processGameWinnings`. -/
def safeProcessWinnings (games : List GameRow) (db : WalletDb)
    (processed : List String) (gameId : String) : WalletDb × List String :=
  if processed.contains gameId then (db, processed)
  else (processGameWinnings games db gameId, gameId :: processed)

/-- Number of COMPLETED GAME_WINNING ledger rows keyed to a game id. -/
def gameWinningCount (l : List Transact) (gameId : String) : Nat :=
  l.countP (fun t =>
    t.type == .GAME_WINNING && t.status == .COMPLETED && t.gameId == some gameId)

-- Basic facts about the wallet primitives.

theorem getWallet_ledger (db : WalletDb) (u : String) :
    ((getWallet db u).2).ledger = db.ledger := by
  unfold getWallet
  cases findWallet db u <;> simp

theorem creditWallet_ledger (db : WalletDb) (u : String) (a : Rat)
    (ty : TxnType) (g : Option String) :
    (creditWallet db u a ty g).ledger =
      db.ledger ++ [{ userId := u, type := ty, amount := a,
                      status := .COMPLETED, gameId := g }] := by
  unfold creditWallet
  simp [getWallet_ledger]

/-- Ledger effect of one settlement run on a FINISHED room with a winner. -/
theorem processGameWinnings_ledger (games : List GameRow) (db : WalletDb)
    (gameId : String) (g : GameRow) (w : String)
    (hg : getGameById games gameId = some g)
    (hs : g.status = .FINISHED)
    (hw : g.winner = some w) :
    (processGameWinnings games db gameId).ledger =
      db.ledger ++ [{ userId := w, type := .GAME_WINNING,
                      amount := g.prizePool * (9 / 10),
                      status := .COMPLETED, gameId := some gameId }] := by
  unfold processGameWinnings
  rw [hg]
  simp [hs, hw, creditWallet_ledger]

-- Concrete room used by the settlement counterexamples: a 2-player room
-- with entry fee 100, as created by `matchmakingService.createGame`.

/-- A FINISHED 2-player room with entry fee 100; `createGame` stores
`prizePool = (100 * 2) * 0.9 = 180`. -/
def cexGame : GameRow :=
  { id := "g1", maxPlayers := 2, entryFee := 100,
    prizePool := matchPrizePool 100 2, status := .FINISHED,
    winner := some "u1" }

theorem cexGame_lookup : getGameById [cexGame] "g1" = some cexGame := by
  simp [getGameById, cexGame]

theorem cexGame_prizePool : cexGame.prizePool = 180 := by
  norm_num [cexGame, matchPrizePool]

/-- Claim C1 (counterexample): for the concrete FINISHED room `cexGame`
(entry fee 100, two players, stored prize pool 180), settlement creates a
single COMPLETED GAME_WINNING ledger entry keyed to the room whose amount
is 162 = 0.9 × prizePool, and 162 ≠ 180 — so the entry's amount does not
equal the prize pool stored at room creation as the claim states. -/
theorem c1_counterexample :
    cexGame.prizePool = 180 ∧
    (processGameWinnings [cexGame] ⟨[("u1", 0)], []⟩ "g1").ledger =
      [{ userId := "u1", type := .GAME_WINNING, amount := 162,
         status := .COMPLETED, gameId := some "g1" }] ∧
    (162 : Rat) ≠ 180 := by
  refine ⟨cexGame_prizePool, ?_, by norm_num⟩
  rw [processGameWinnings_ledger [cexGame] ⟨[("u1", 0)], []⟩ "g1" cexGame "u1"
    cexGame_lookup rfl rfl]
  simp [cexGame_prizePool]
  norm_num

/-- Claim C1 (amended): for every room that reaches FINISHED with a
declared winner, one settlement run creates exactly one COMPLETED ledger
entry with kind GAME_WINNING keyed to that room id, but its amount is
`0.9 × prizePool` (hence `0.81 × entryFee × maxPlayers` for the prize pool
stored at room creation) — not the stored prize pool itself. -/
theorem c1_settlement_amount (games : List GameRow) (db : WalletDb)
    (gameId : String) (g : GameRow) (w : String)
    (hg : getGameById games gameId = some g)
    (hs : g.status = .FINISHED)
    (hw : g.winner = some w)
    (h0 : gameWinningCount db.ledger gameId = 0) :
    (processGameWinnings games db gameId).ledger =
      db.ledger ++ [{ userId := w, type := .GAME_WINNING,
                      amount := g.prizePool * (9 / 10),
                      status := .COMPLETED, gameId := some gameId }] ∧
    gameWinningCount (processGameWinnings games db gameId).ledger gameId = 1 ∧
    (g.prizePool = matchPrizePool g.entryFee g.maxPlayers →
      g.prizePool * (9 / 10) = (g.entryFee * g.maxPlayers) * (81 / 100)) := by
  have hled := processGameWinnings_ledger games db gameId g w hg hs hw
  refine ⟨hled, ?_, ?_⟩
  · rw [hled]
    unfold gameWinningCount at h0 ⊢
    rw [List.countP_append, h0]
    simp
  · intro hp
    rw [hp]
    unfold matchPrizePool
    ring

/-- Witness for `c1_settlement_amount` at the concrete room `cexGame`. -/
theorem c1_settlement_amount_witness :
    (processGameWinnings [cexGame] ⟨[("u1", 0)], []⟩ "g1").ledger =
      ([] : List Transact) ++
        [{ userId := "u1", type := .GAME_WINNING,
           amount := cexGame.prizePool * (9 / 10),
           status := .COMPLETED, gameId := some "g1" }] :=
  (c1_settlement_amount [cexGame] ⟨[("u1", 0)], []⟩ "g1" cexGame "u1"
    cexGame_lookup rfl rfl rfl).1

/-- Claim C2 (counterexample): invoking the bare settlement entry point
`processGameWinnings` (called directly by the Fast Ludo, Classic Ludo and
Snakes & Ladders end-game paths) a second time on the same FINISHED room
does not reproduce the ledger state of a single invocation — the winner is
credited a second time. -/
theorem c2_counterexample :
    (processGameWinnings [cexGame]
        (processGameWinnings [cexGame] ⟨[("u1", 0)], []⟩ "g1") "g1").ledger ≠
      (processGameWinnings [cexGame] ⟨[("u1", 0)], []⟩ "g1").ledger := by
  have h1 := processGameWinnings_ledger [cexGame] ⟨[("u1", 0)], []⟩ "g1" cexGame "u1"
    cexGame_lookup rfl rfl
  have h2 := processGameWinnings_ledger [cexGame]
    (processGameWinnings [cexGame] ⟨[("u1", 0)], []⟩ "g1") "g1" cexGame "u1"
    cexGame_lookup rfl rfl
  intro heq
  rw [h2, h1] at heq
  have := congrArg List.length heq
  simp at this

/-- Claim C2 (amended): the guarded Memory-path settlement
`safeProcessWinnings` is idempotent — a second invocation for the same room
id returns exactly the state produced by the first, because the room id is
recorded in the `processedWinnings` set; the bare `processGameWinnings`
invoked twice credits the winner twice (see the counterexample). -/
theorem c2_safe_settlement_idempotent (games : List GameRow) (db : WalletDb)
    (processed : List String) (gameId : String) :
    safeProcessWinnings games (safeProcessWinnings games db processed gameId).1
        (safeProcessWinnings games db processed gameId).2 gameId =
      safeProcessWinnings games db processed gameId := by
  unfold safeProcessWinnings
  rcases hc : processed.contains gameId with _ | _
  · simp only [hc, Bool.false_eq_true, if_false]
    simp [List.contains_cons]
  · simp [hc, List.mem_of_elem_eq_true hc]

/-- Claim C10: wallet access auto-creates missing wallets — when no wallet
row exists for a user, `getWallet` creates one with balance 0, the balance
read returns 0, and afterwards the row exists with balance 0. -/
theorem c10_wallet_autocreate (db : WalletDb) (u : String)
    (h : findWallet db u = none) :
    getWalletBalance db u = 0 ∧
    findWallet (getWallet db u).2 u = some 0 := by
  have hfind : (db.wallets.find? (fun p => p.1 == u)) = none := by
    unfold findWallet at h
    cases hx : db.wallets.find? (fun p => p.1 == u) with
    | none => rfl
    | some p => rw [hx] at h; simp at h
  have hg : getWallet db u = (0, { db with wallets := db.wallets ++ [(u, 0)] }) := by
    unfold getWallet
    rw [h]
  constructor
  · unfold getWalletBalance
    rw [hg]
  · rw [hg]
    unfold findWallet
    simp [List.find?_append, hfind]

/-- Witness for `c10_wallet_autocreate` on the empty database. -/
theorem c10_wallet_autocreate_witness :
    getWalletBalance ⟨[], []⟩ "u1" = 0 ∧
    findWallet (getWallet ⟨[], []⟩ "u1").2 "u1" = some 0 :=
  c10_wallet_autocreate ⟨[], []⟩ "u1" rfl

/-- One row of the `matchmakingQueue` table. -/
structure QueueEntry where
  id : Nat
  userId : String
  gameType : String
  maxPlayers : Nat
  entryFee : Rat
deriving DecidableEq, Repr

/-- The storage state seen by the matchmaker: wallet/ledger plus the
`game`, `gameParticipation` (as `(gameId, userId)` pairs) and
`matchmakingQueue` tables. -/
structure SysDb where
  wallet : WalletDb
  games : List GameRow
  participations : List (String × String)
  queue : List QueueEntry
deriving DecidableEq, Repr

/-- Body of the per-entry loop of `matchmakingService.createGame`.

For each matched queue entry the source first calls
`walletService.deductGameEntry` — which goes through the GLOBAL prisma
client, so the debit commits immediately as its own transaction and its
`{success:false}` result is ignored — and then issues the
`tx.gameParticipation.create` and `tx.matchmakingQueue.deleteMany` writes
on the surrounding transaction.  `abortAt = some i` means the transaction
callback throws while creating the participation row of entry `i` (for
example a constraint violation or storage error); the accumulated `tx`
writes are then discarded while the wallet writes stay committed. -/
def createGameGo (gid : String) (fee : Rat) (w : WalletDb)
    (parts : List (String × String)) (qdel : List Nat)
    (entries : List QueueEntry) (i : Nat) (abortAt : Option Nat) :
    WalletDb × Option (List (String × String) × List Nat) :=
  match entries with
  | [] => (w, some (parts, qdel))
  | e :: rest =>
    let w1 := if 0 < fee then (deductGameEntry w e.userId fee gid).2 else w
    if abortAt = some i then (w1, none)
    else
      createGameGo gid fee w1 (parts ++ [(gid, e.userId)]) (qdel ++ [e.id])
        rest (i + 1) abortAt

/-- `matchmakingService.createGame` restricted to the matched group: runs
the room-creation transaction over the matched queue entries.  When the
transaction completes, the game row, participations and queue deletions
commit together with the already-committed debits; when it aborts, only
the debits persist. -/
def createGame (db : SysDb) (entries : List QueueEntry) (gid : String)
    (fee : Rat) (n : Nat) (abortAt : Option Nat) : SysDb :=
  let run := createGameGo gid fee db.wallet [] [] entries 0 abortAt
  match run.2 with
  | none => { db with wallet := run.1 }
  | some pq =>
    { wallet := run.1,
      games := db.games ++
        [{ id := gid, maxPlayers := n, entryFee := fee,
           prizePool := matchPrizePool fee n, status := .WAITING }],
      participations := db.participations ++ pq.1,
      queue := db.queue.filter (fun q => !(pq.2.contains q.id)) }

/-- Number of COMPLETED GAME_ENTRY ledger rows keyed to a game id. -/
def gameEntryCount (l : List Transact) (gameId : String) : Nat :=
  l.countP (fun t =>
    t.type == .GAME_ENTRY && t.status == .COMPLETED && t.gameId == some gameId)

/-- A matched 2-player CLASSIC_LUDO group at entry fee 50. -/
def c3Entry1 : QueueEntry := ⟨1, "u1", "CLASSIC_LUDO", 2, 50⟩

/-- Second member of the matched group. -/
def c3Entry2 : QueueEntry := ⟨2, "u2", "CLASSIC_LUDO", 2, 50⟩

/-- Pre-sweep storage state: both users hold balance 100. -/
def c3Db : SysDb :=
  ⟨⟨[("u1", 100), ("u2", 100)], []⟩, [], [], [c3Entry1, c3Entry2]⟩

/-- Claim C3 (code bug): when the room-creation transaction aborts while
creating the second participation row, both users' entry-fee debits
persist — balances drop from 100 to 50 and two COMPLETED GAME_ENTRY
ledger rows keyed to the aborted room remain — even though no game row,
participation or queue deletion was committed.  The debits are issued
through the global client rather than the transaction, contradicting the
source's own "process payments in transaction" comment and the claim. -/
theorem c3_bug_evidence :
    (createGame c3Db [c3Entry1, c3Entry2] "g1" 50 2 (some 1)).games = [] ∧
    (createGame c3Db [c3Entry1, c3Entry2] "g1" 50 2 (some 1)).participations = [] ∧
    (createGame c3Db [c3Entry1, c3Entry2] "g1" 50 2 (some 1)).queue =
      [c3Entry1, c3Entry2] ∧
    (createGame c3Db [c3Entry1, c3Entry2] "g1" 50 2 (some 1)).wallet.wallets =
      [("u1", 50), ("u2", 50)] ∧
    gameEntryCount
      (createGame c3Db [c3Entry1, c3Entry2] "g1" 50 2 (some 1)).wallet.ledger
      "g1" = 2 := by
  have h1 : ((100 : Rat) < 50) = False := by norm_num
  have h2 : (100 : Rat) + -50 = 50 := by norm_num
  simp [createGame, createGameGo, deductGameEntry, deductWallet, getWallet,
    findWallet, bumpWallet, gameEntryCount, c3Db, c3Entry1, c3Entry2,
    h1, h2, List.countP, List.countP.go]

-- Deposit confirmation.  The repository contains two WalletService
-- implementations of `processDeposit`: the one in `walletService.js`
-- performs no signature verification at all, while the copy bundled at the
-- end of `ClassicLudoService.js` verifies the Razorpay HMAC-SHA256
-- signature (when the gateway keys are configured) before crediting.

/-- Outcome reported by `processDeposit` (`{success, balance}` or
`{success:false, message}`). -/
inductive DepResult where
  | success (balance : Rat)
  | failure (message : String)
deriving DecidableEq, Repr

/-- The `findFirst` filter for the pending deposit row:
`{userId, razorpayOrderId, status:'PENDING', type:'DEPOSIT'}`. -/
def depositPred (u oid : String) (t : Transact) : Bool :=
  t.userId == u && t.razorpayOrderId == some oid &&
    t.status == .PENDING && t.type == .DEPOSIT

/-- `prisma.transaction.update` keyed by the id of the row found by
`findFirst`: rewrites the first row matching the predicate. -/
def updateFirst (l : List Transact) (p : Transact → Bool)
    (f : Transact → Transact) : List Transact :=
  match l with
  | [] => []
  | t :: ts => if p t then f t :: ts else t :: updateFirst ts p f

/-- Shared success path of both `processDeposit` copies: inside one storage
transaction, mark the pending row COMPLETED (storing payment id and
signature), upsert the wallet, and increment the balance. -/
def completeDeposit (db : WalletDb) (u : String) (amount : Rat)
    (oid pid sig : String) : DepResult × WalletDb :=
  let l1 := updateFirst db.ledger (depositPred u oid)
    (fun t =>
      { t with
        status := .COMPLETED,
        razorpayPaymentId := some pid,
        razorpaySignature := some sig })
  let db1 := (getWallet { db with ledger := l1 } u).2
  let db2 := { db1 with wallets := bumpWallet db1.wallets u amount }
  (.success (getWalletBalance db2 u), db2)

/-- `walletService.processDeposit` (the `walletService.js` copy): finds the
pending deposit and completes it — the `razorpaySignature` argument is
stored but never verified. -/
def processDeposit1 (db : WalletDb) (u : String) (amount : Rat)
    (oid pid sig : String) : DepResult × WalletDb :=
  match db.ledger.find? (depositPred u oid) with
  | none => (.failure "Transaction not found", db)
  | some _ => completeDeposit db u amount oid pid sig

/-- The `processDeposit` copy bundled in `ClassicLudoService.js`: when the
gateway is configured, recomputes HMAC-SHA256(secret, "orderId|paymentId")
(the hash itself is kept abstract as `hmac`) and on mismatch marks the row
FAILED and reports failure without touching the balance. -/
def processDeposit2 (configured : Bool) (hmac : String → String → String)
    (secret : String) (db : WalletDb) (u : String) (amount : Rat)
    (oid pid sig : String) : DepResult × WalletDb :=
  match db.ledger.find? (depositPred u oid) with
  | none => (.failure "Transaction not found or already processed", db)
  | some _ =>
    if configured && !(hmac secret (oid ++ "|" ++ pid) == sig) then
      (.failure "Payment verification failed",
        { db with
          ledger := updateFirst db.ledger (depositPred u oid)
                      (fun t => { t with status := .FAILED }) })
    else completeDeposit db u amount oid pid sig

-- Wallet-balance bookkeeping lemmas used by the deposit theorems.

theorem getWalletBalance_of_findWallet (db : WalletDb) (u : String) (b : Rat)
    (h : findWallet db u = some b) : getWalletBalance db u = b := by
  unfold getWalletBalance getWallet
  rw [h]

theorem findWallet_after_get (db : WalletDb) (u : String) :
    findWallet (getWallet db u).2 u = some (getWalletBalance db u) := by
  unfold getWalletBalance getWallet
  cases h : findWallet db u with
  | some b => simpa using h
  | none =>
    have hfind : (db.wallets.find? (fun p => p.1 == u)) = none := by
      unfold findWallet at h
      cases hx : db.wallets.find? (fun p => p.1 == u) with
      | none => rfl
      | some p => rw [hx] at h; simp at h
    simp [findWallet, List.find?_append, hfind]


theorem findWallet_bumpWallet (ws : List (String × Rat)) (l l' : List Transact)
    (u : String) (d : Rat) :
    findWallet ⟨bumpWallet ws u d, l⟩ u = (findWallet ⟨ws, l'⟩ u).map (· + d) := by
  unfold findWallet bumpWallet
  have hp : ((fun p : String × Rat => p.1 == u) ∘
      fun p : String × Rat => if p.1 == u then (p.1, p.2 + d) else p) =
      fun p : String × Rat => p.1 == u := by
    funext q
    rcases eq_or_ne q.1 u with h | h <;> simp [h]
  rw [List.find?_map, hp]
  cases hfound : ws.find? (fun p => p.1 == u) with
  | none => simp
  | some q =>
    have hq : q.1 = u := by simpa using List.find?_some hfound
    simp [hq]

theorem getWalletBalance_set_ledger (db : WalletDb) (l : List Transact)
    (u : String) :
    getWalletBalance { db with ledger := l } u = getWalletBalance db u := by
  unfold getWalletBalance getWallet
  have hsame : findWallet { db with ledger := l } u = findWallet db u := rfl
  rw [hsame]
  cases findWallet db u <;> simp

/-- Full behaviour of the shared deposit success path. -/
theorem completeDeposit_spec (db : WalletDb) (u : String) (amount : Rat)
    (oid pid sig : String) :
    (completeDeposit db u amount oid pid sig).2.ledger =
      updateFirst db.ledger (depositPred u oid)
        (fun t =>
          { t with
            status := .COMPLETED,
            razorpayPaymentId := some pid,
            razorpaySignature := some sig }) ∧
    getWalletBalance (completeDeposit db u amount oid pid sig).2 u =
      getWalletBalance db u + amount ∧
    (completeDeposit db u amount oid pid sig).1 =
      .success (getWalletBalance db u + amount) := by
  have hbal : ∀ l1 : List Transact,
      getWalletBalance
        { (getWallet { db with ledger := l1 } u).2 with
          wallets := bumpWallet ((getWallet { db with ledger := l1 } u).2).wallets u amount } u
      = getWalletBalance db u + amount := by
    intro l1
    apply getWalletBalance_of_findWallet
    have hbump := findWallet_bumpWallet
      ((getWallet { db with ledger := l1 } u).2).wallets
      ((getWallet { db with ledger := l1 } u).2).ledger
      ((getWallet { db with ledger := l1 } u).2).ledger u amount
    have heta : (⟨((getWallet { db with ledger := l1 } u).2).wallets,
        ((getWallet { db with ledger := l1 } u).2).ledger⟩ : WalletDb) =
        (getWallet { db with ledger := l1 } u).2 := rfl
    rw [heta] at hbump
    show findWallet ⟨bumpWallet ((getWallet { db with ledger := l1 } u).2).wallets u amount,
        ((getWallet { db with ledger := l1 } u).2).ledger⟩ u = _
    rw [hbump, findWallet_after_get, getWalletBalance_set_ledger]
    rfl
  have hled : ∀ l1 : List Transact,
      ({ (getWallet { db with ledger := l1 } u).2 with
          wallets := bumpWallet ((getWallet { db with ledger := l1 } u).2).wallets u amount } : WalletDb).ledger
        = l1 := by
    intro l1
    show ((getWallet { db with ledger := l1 } u).2).ledger = l1
    rw [getWallet_ledger]
  simp only [completeDeposit]
  exact ⟨hled _, hbal _, by rw [hbal _]⟩

/-- The pending DEPOSIT row awaiting gateway confirmation. -/
def c4Pending : Transact :=
  { userId := "u1", type := .DEPOSIT, amount := 500, status := .PENDING,
    razorpayOrderId := some "ord1" }

/-- Wallet database holding only the pending deposit. -/
def c4Db : WalletDb := ⟨[("u1", 0)], [c4Pending]⟩

/-- Claim C4 (counterexample): `walletService.processDeposit` (the
`walletService.js` copy) completes the pending deposit and credits the
balance for two different signature strings on the same receipt.  The
gateway's true HMAC-SHA256 value over "ord1|pay1" is a single string, so
at least one of the two is a non-matching signature — yet it is accepted:
the entry becomes COMPLETED, success is returned and the balance grows,
refuting the claim that every mismatching confirmation is marked FAILED
with the balance unchanged. -/
theorem c4_counterexample :
    (processDeposit1 c4Db "u1" 500 "ord1" "pay1" "sigA").1 = .success 500 ∧
    getWalletBalance (processDeposit1 c4Db "u1" 500 "ord1" "pay1" "sigA").2 "u1" = 500 ∧
    (processDeposit1 c4Db "u1" 500 "ord1" "pay1" "sigB").1 = .success 500 ∧
    getWalletBalance (processDeposit1 c4Db "u1" 500 "ord1" "pay1" "sigB").2 "u1" = 500 ∧
    "sigA" ≠ "sigB" := by
  have hfind : c4Db.ledger.find? (depositPred "u1" "ord1") = some c4Pending := by
    simp [c4Db, depositPred, c4Pending]
  have hbal0 : getWalletBalance c4Db "u1" = 0 := by
    simp [getWalletBalance, getWallet, findWallet, c4Db]
  have hA := completeDeposit_spec c4Db "u1" 500 "ord1" "pay1" "sigA"
  have hB := completeDeposit_spec c4Db "u1" 500 "ord1" "pay1" "sigB"
  rw [hbal0] at hA hB
  norm_num at hA hB
  refine ⟨?_, ?_, ?_, ?_, by simp⟩ <;>
    simp [processDeposit1, hfind, hA.2.2, hA.2.1, hB.2.2, hB.2.1]

/-- Claim C4 (amended): only the `processDeposit` copy bundled in
`ClassicLudoService.js` verifies the signature, and only when the gateway
is configured: it recomputes HMAC-SHA256 over "orderId|paymentId" with the
shared secret; on mismatch the pending DEPOSIT row is marked FAILED, an
error is returned and the balance is unchanged; on match the row
transitions PENDING→COMPLETED and the balance is credited by the amount in
the same transaction.  The `walletService.js` copy credits without any
verification (see the counterexample). -/
theorem c4_deposit_verification (hmac : String → String → String)
    (secret : String) (db : WalletDb) (u : String) (amt : Rat)
    (oid pid sig : String) (t : Transact)
    (hfind : db.ledger.find? (depositPred u oid) = some t) :
    (hmac secret (oid ++ "|" ++ pid) ≠ sig →
      (processDeposit2 true hmac secret db u amt oid pid sig).1 =
        .failure "Payment verification failed" ∧
      (processDeposit2 true hmac secret db u amt oid pid sig).2.wallets =
        db.wallets ∧
      (processDeposit2 true hmac secret db u amt oid pid sig).2.ledger =
        updateFirst db.ledger (depositPred u oid)
          (fun x => { x with status := .FAILED })) ∧
    (hmac secret (oid ++ "|" ++ pid) = sig →
      (processDeposit2 true hmac secret db u amt oid pid sig).1 =
        .success (getWalletBalance db u + amt) ∧
      (processDeposit2 true hmac secret db u amt oid pid sig).2.ledger =
        updateFirst db.ledger (depositPred u oid)
          (fun x =>
            { x with
              status := .COMPLETED,
              razorpayPaymentId := some pid,
              razorpaySignature := some sig }) ∧
      getWalletBalance (processDeposit2 true hmac secret db u amt oid pid sig).2 u =
        getWalletBalance db u + amt) := by
  constructor
  · intro hne
    have hcond : (true && !(hmac secret (oid ++ "|" ++ pid) == sig)) = true := by
      simp [hne]
    simp only [processDeposit2, hfind, hcond, if_true]
    exact ⟨trivial, trivial, trivial⟩
  · intro heq
    have hcond : (true && !(hmac secret (oid ++ "|" ++ pid) == sig)) = false := by
      simp [heq]
    simp only [processDeposit2, hfind, hcond, Bool.false_eq_true, if_false]
    obtain ⟨h1, h2, h3⟩ := completeDeposit_spec db u amt oid pid sig
    exact ⟨h3, h1, h2⟩

/-- Witness for `c4_deposit_verification`: a concrete abstract-HMAC
function, a matching and a mismatching confirmation on `c4Db`. -/
theorem c4_deposit_verification_witness :
    (processDeposit2 true (fun s m => s ++ "#" ++ m) "sec" c4Db "u1" 500
        "ord1" "pay1" "bad").1 = .failure "Payment verification failed" ∧
    (processDeposit2 true (fun s m => s ++ "#" ++ m) "sec" c4Db "u1" 500
        "ord1" "pay1" "sec#ord1|pay1").1 =
      .success (getWalletBalance c4Db "u1" + 500) := by
  have hfind : c4Db.ledger.find? (depositPred "u1" "ord1") = some c4Pending := by
    simp [c4Db, depositPred, c4Pending]
  constructor
  · exact ((c4_deposit_verification (fun s m => s ++ "#" ++ m) "sec" c4Db "u1"
      500 "ord1" "pay1" "bad" c4Pending hfind).1 (by simp)).1
  · exact ((c4_deposit_verification (fun s m => s ++ "#" ++ m) "sec" c4Db "u1"
      500 "ord1" "pay1" "sec#ord1|pay1" c4Pending hfind).2 (by simp)).1

-- Matchmaking queue joins.  The repository contains two
-- MatchmakingService implementations: the primary one (the initialized
-- singleton) replaces an existing queue entry of the same user, the
-- second one rejects the duplicate enqueue with an error.

/-- Number of queue entries belonging to a user. -/
def userCount (queue : List QueueEntry) (u : String) : Nat :=
  queue.countP (fun q => q.userId == u)

/-- `joinQueue` of the primary MatchmakingService: balance check, then
`findFirst` an existing entry of the user, delete it by id, and insert the
new entry. -/
def joinQueue1 (db : WalletDb) (queue : List QueueEntry) (newId : Nat)
    (u gt : String) (mp : Nat) (fee : Rat) : Except String (List QueueEntry) :=
  if 0 < fee ∧ getWalletBalance db u < fee then .error "Insufficient balance"
  else
    match queue.find? (fun q => q.userId == u) with
    | some ex =>
      .ok (queue.filter (fun q => q.id != ex.id) ++ [⟨newId, u, gt, mp, fee⟩])
    | none => .ok (queue ++ [⟨newId, u, gt, mp, fee⟩])

/-- `joinQueue` of the second MatchmakingService: throws when the user is
already queued instead of replacing the entry. -/
def joinQueue2 (db : WalletDb) (queue : List QueueEntry) (newId : Nat)
    (u gt : String) (mp : Nat) (fee : Rat) : Except String (List QueueEntry) :=
  if 0 < fee ∧ getWalletBalance db u < fee then .error "Insufficient balance"
  else
    match queue.find? (fun q => q.userId == u) with
    | some _ => .error "Already in matchmaking queue"
    | none => .ok (queue ++ [⟨newId, u, gt, mp, fee⟩])

/-- Two members of a list satisfying a predicate that holds at most once
are the same element. -/
theorem countP_le_one_unique {α : Type} (p : α → Bool) (l : List α)
    (h : l.countP p ≤ 1) (a b : α) (ha : a ∈ l) (hb : b ∈ l)
    (hpa : p a = true) (hpb : p b = true) : a = b := by
  have ha2 : a ∈ l.filter p := List.mem_filter.mpr ⟨ha, hpa⟩
  have hb2 : b ∈ l.filter p := List.mem_filter.mpr ⟨hb, hpb⟩
  have hlen : (l.filter p).length ≤ 1 := by
    rw [← List.countP_eq_length_filter]
    exact h
  match hl : l.filter p with
  | [] => rw [hl] at ha2; simp at ha2
  | [x] =>
    rw [hl] at ha2 hb2
    simp at ha2 hb2
    rw [ha2, hb2]
  | x :: y :: rest => rw [hl] at hlen; simp at hlen

/-- Claim C5 (counterexample): in the second MatchmakingService, a user
who is already queued and enqueues again gets the error "Already in
matchmaking queue" — the request fails instead of replacing the entry. -/
theorem c5_counterexample :
    joinQueue2 ⟨[("u1", 100)], []⟩ [⟨1, "u1", "MEMORY", 2, 0⟩] 2
        "u1" "MEMORY" 2 0 = .error "Already in matchmaking queue" := by
  simp [joinQueue2]

/-- Claim C5 (amended): the at-most-one-entry invariant is preserved, and
in the primary MatchmakingService a duplicate enqueue succeeds by
remove-then-insert: after `joinQueue1` the user has exactly one entry, it
is the freshly inserted one, and every user still has at most one entry.
The second MatchmakingService instead fails the duplicate request with
"Already in matchmaking queue" (see the counterexample). -/
theorem c5_queue_replace (db : WalletDb) (queue : List QueueEntry)
    (newId : Nat) (u gt : String) (mp : Nat) (fee : Rat)
    (hbal : ¬(0 < fee ∧ getWalletBalance db u < fee))
    (huniq : ∀ v, userCount queue v ≤ 1) :
    ∃ q', joinQueue1 db queue newId u gt mp fee = .ok q' ∧
      userCount q' u = 1 ∧
      (∀ v, userCount q' v ≤ 1) ∧
      (⟨newId, u, gt, mp, fee⟩ : QueueEntry) ∈ q' ∧
      (∀ e ∈ q', e.userId = u → e = ⟨newId, u, gt, mp, fee⟩) := by
  unfold joinQueue1
  rw [if_neg hbal]
  cases hfound : queue.find? (fun q => q.userId == u) with
  | none =>
    refine ⟨queue ++ [⟨newId, u, gt, mp, fee⟩], rfl, ?_, ?_, ?_, ?_⟩
    · have h0 : userCount queue u = 0 := by
        unfold userCount
        rw [List.countP_eq_zero]
        intro a ha
        exact List.find?_eq_none.mp hfound a ha
      unfold userCount at h0 ⊢
      rw [List.countP_append, h0]
      simp
    · intro v
      unfold userCount at huniq ⊢
      rw [List.countP_append]
      rcases eq_or_ne v u with hv | hv
      · have h0 : queue.countP (fun q => q.userId == v) = 0 := by
          rw [List.countP_eq_zero]
          intro a ha
          rw [hv]
          exact List.find?_eq_none.mp hfound a ha
        rw [h0]
        simp [hv, List.countP_cons]
      · have h1 : List.countP (fun q : QueueEntry => q.userId == v)
            [⟨newId, u, gt, mp, fee⟩] = 0 := by
          simp [hv.symm]
        rw [h1]
        simpa using huniq v
    · simp
    · intro e he heu
      rcases List.mem_append.mp he with h | h
      · exact absurd heu (by simpa using List.find?_eq_none.mp hfound e h)
      · simpa using h
  | some ex =>
    have hexu : ex.userId = u := by simpa using List.find?_some hfound
    have hexmem : ex ∈ queue := List.mem_of_find?_eq_some hfound
    have hq1zero : userCount (queue.filter (fun q => q.id != ex.id)) u = 0 := by
      unfold userCount
      rw [List.countP_eq_zero]
      intro e he
      rcases List.mem_filter.mp he with ⟨hemem, heid⟩
      intro hpe
      have heq : e = ex := countP_le_one_unique (fun q : QueueEntry => q.userId == u)
        queue (huniq u) e ex hemem hexmem hpe (by simp [hexu])
      rw [heq] at heid
      simp at heid
    refine ⟨_, rfl, ?_, ?_, ?_, ?_⟩
    · unfold userCount at hq1zero ⊢
      rw [List.countP_append, hq1zero]
      simp
    · intro v
      unfold userCount at huniq hq1zero ⊢
      rw [List.countP_append]
      rcases eq_or_ne v u with hv | hv
      · rw [hv, hq1zero]
        simp
      · have h1 : List.countP (fun q : QueueEntry => q.userId == v)
            [⟨newId, u, gt, mp, fee⟩] = 0 := by
          simp [hv.symm]
        rw [h1]
        have hfle : (queue.filter (fun q => q.id != ex.id)).countP (fun q => q.userId == v) ≤
            queue.countP (fun q => q.userId == v) := by
          rw [List.countP_filter]
          exact List.countP_mono_left (fun a _ h => by
            simp at h
            simp [h.1])
        simpa using le_trans hfle (huniq v)
    · simp
    · intro e he heu
      rcases List.mem_append.mp he with h | h
      · exfalso
        have := List.countP_eq_zero.mp hq1zero e h
        simp [heu] at this
      · simpa using h

/-- Witness for `c5_queue_replace`: user u1 re-enqueues while already
queued; the entry is replaced. -/
theorem c5_queue_replace_witness :
    ∃ q', joinQueue1 ⟨[("u1", 100)], []⟩ [⟨1, "u1", "MEMORY", 2, 0⟩] 2
        "u1" "MEMORY" 2 0 = .ok q' ∧
      userCount q' "u1" = 1 ∧
      (∀ v, userCount q' v ≤ 1) ∧
      (⟨2, "u1", "MEMORY", 2, 0⟩ : QueueEntry) ∈ q' ∧
      (∀ e ∈ q', e.userId = "u1" → e = ⟨2, "u1", "MEMORY", 2, 0⟩) :=
  c5_queue_replace ⟨[("u1", 100)], []⟩ [⟨1, "u1", "MEMORY", 2, 0⟩] 2
    "u1" "MEMORY" 2 0 (by norm_num)
    (fun v => le_trans (List.countP_le_length _) (by simp))

-- Ludo engine (`gameService.applyLudoMove` plus the Classic Ludo score
-- update).  Board cells are `Int` (JS numbers; `-1` marks "not on the
-- ring"), pieces and per-colour bookkeeping follow the `gameData` shape
-- produced by `initializeLudoGameBoard`.

/-- The four Ludo colours, in the board's key insertion order. -/
inductive LColor where
  | red
  | blue
  | green
  | yellow
deriving DecidableEq, Repr

/-- `HOME_POSITIONS`: entry cell of each colour. -/
def homeEntry : LColor → Int
  | .red => 0
  | .blue => 13
  | .green => 26
  | .yellow => 39

/-- `SAFE_ZONES` of `gameService` — twelve cells, not the eight-cell safe
set stated in the specification. -/
def SAFE_ZONES : List Int := [0, 13, 26, 39, 8, 21, 34, 47, 51, 12, 25, 38]

/-- Piece state: `position` field of a piece object. -/
inductive PiecePos where
  | home
  | board
  | homeStretch
  | finished
deriving DecidableEq, Repr

/-- One piece object `{id, position, homeIndex, boardPosition}`. -/
structure LPiece where
  id : Nat
  pos : PiecePos
  homeIndex : Int
  boardPosition : Int
deriving DecidableEq, Repr

/-- Per-colour board state `{pieces, piecesInHome, piecesFinished, score}`. -/
structure ColorState where
  pieces : List LPiece
  piecesInHome : Int
  piecesFinished : Int
  score : Int
deriving DecidableEq, Repr

/-- The Ludo board object keyed by colour (a 2-player room leaves the
unused colours with all pieces at home, which never participate in
captures). -/
structure LBoard where
  red : ColorState
  blue : ColorState
  green : ColorState
  yellow : ColorState
deriving DecidableEq, Repr

def LBoard.get (b : LBoard) : LColor → ColorState
  | .red => b.red
  | .blue => b.blue
  | .green => b.green
  | .yellow => b.yellow

def LBoard.set (b : LBoard) (c : LColor) (cs : ColorState) : LBoard :=
  match c with
  | .red => { b with red := cs }
  | .blue => { b with blue := cs }
  | .green => { b with green := cs }
  | .yellow => { b with yellow := cs }

/-- Inner loop of the capture pass over one colour's pieces: every
opposing piece standing on `np` is sent home (with `homeIndex` taken from
the running `piecesInHome` counter) unless `np` is in `SAFE_ZONES`; the
last captured piece id wins the `capturedPiece` slot. -/
def captureGo (np : Int) (pin : Int) (cap : Option Nat) :
    List LPiece → List LPiece × Int × Option Nat
  | [] => ([], pin, cap)
  | p :: ps =>
    if p.pos = .board ∧ p.boardPosition = np ∧ np ∉ SAFE_ZONES then
      let p2 := { p with pos := .home, boardPosition := -1, homeIndex := pin }
      let r := captureGo np (pin + 1) (some p.id) ps
      (p2 :: r.1, r.2)
    else
      let r := captureGo np pin cap ps
      (p :: r.1, r.2)

/-- Capture pass over one colour. -/
def captureColor (cs : ColorState) (np : Int) : ColorState × Option Nat :=
  let r := captureGo np cs.piecesInHome none cs.pieces
  ({ cs with pieces := r.1, piecesInHome := r.2.1 }, r.2.2)

/-- The `for (const color in board)` capture loop of `applyLudoMove`:
visits the colours in insertion order, skipping the mover. -/
def captureAll (b : LBoard) (mover : LColor) (np : Int) :
    LBoard × Option (LColor × Nat) :=
  [LColor.red, LColor.blue, LColor.green, LColor.yellow].foldl
    (fun acc c =>
      if c = mover then acc
      else
        let r := captureColor (acc.1.get c) np
        (acc.1.set c r.1,
         match r.2 with
         | some pid => some (c, pid)
         | none => acc.2))
    (b, none)

/-- Actions reported by `applyLudoMove`. -/
inductive MoveAction where
  | MOVE_OUT_HOME
  | FINISH_PIECE
  | CAPTURE
  | MOVE
deriving DecidableEq, Repr

/-- Result of `applyLudoMove`. -/
structure MoveResult where
  success : Bool
  action : Option MoveAction := none
  newPosition : Int := 0
  board : LBoard
  capturedPiece : Option (LColor × Nat) := none
deriving DecidableEq, Repr

/-- `gameService.applyLudoMove`: dice validation, leaving home on a 6,
ring movement `(pos + dice) % 52`, finishing at `HOME_POSITIONS[color]+51`,
and the capture pass on the landing cell. -/
def applyLudoMove (b : LBoard) (color : LColor) (pieceIdx : Nat)
    (dice : Int) : MoveResult :=
  if dice < 1 ∨ dice > 6 then { success := false, board := b }
  else
    match (b.get color).pieces[pieceIdx]? with
    | none => { success := false, board := b }
    | some piece =>
      match piece.pos with
      | .home =>
        if dice = 6 then
          let startPos := homeEntry color
          let p2 :=
            { piece with
              pos := .board,
              boardPosition := startPos,
              homeIndex := -1 }
          let cs := b.get color
          let cs2 :=
            { cs with
              pieces := cs.pieces.set pieceIdx p2,
              piecesInHome := cs.piecesInHome - 1 }
          { success := true, action := some .MOVE_OUT_HOME,
            newPosition := startPos, board := b.set color cs2 }
        else { success := false, board := b }
      | .board =>
        let newPos := (piece.boardPosition + dice).emod 52
        if newPos ≥ homeEntry color + 51 then
          let p2 := { piece with pos := .finished, boardPosition := -1 }
          let cs := b.get color
          let cs2 :=
            { cs with
              pieces := cs.pieces.set pieceIdx p2,
              piecesFinished := cs.piecesFinished + 1 }
          { success := true, action := some .FINISH_PIECE, newPosition := -1,
            board := b.set color cs2 }
        else
          let p2 := { piece with boardPosition := newPos }
          let cs := b.get color
          let b1 := b.set color { cs with pieces := cs.pieces.set pieceIdx p2 }
          let r := captureAll b1 color newPos
          { success := true,
            action := some (if r.2.isSome then .CAPTURE else .MOVE),
            newPosition := newPos, board := r.1, capturedPiece := r.2 }
      | _ => { success := false, board := b }

/-- Score delta applied by `ClassicLudoService.movePiece` to the mover. -/
def classicScoreChange : Option MoveAction → Int
  | some .MOVE_OUT_HOME => 1
  | some .CAPTURE => 5
  | some .FINISH_PIECE => 10
  | _ => 0

/-- `ClassicLudoService.movePiece` (state part): apply the move, then add
the action's score delta to the mover's colour — no other score changes. -/
def classicMovePiece (b : LBoard) (color : LColor) (pieceIdx : Nat)
    (dice : Int) : MoveResult :=
  let r := applyLudoMove b color pieceIdx dice
  if r.success then
    let cs := r.board.get color
    let cs2 := { cs with score := cs.score + classicScoreChange r.action }
    { r with board := r.board.set color cs2 }
  else r

/-- A piece still waiting at home. -/
def homePiece (i : Nat) : LPiece := ⟨i, .home, (i : Int), -1⟩

/-- A colour with all four pieces at home. -/
def homeCS : ColorState :=
  ⟨[homePiece 0, homePiece 1, homePiece 2, homePiece 3], 4, 0, 0⟩

/-- Board A: blue piece 0 on cell 7, red piece 0 on cell 12. -/
def c6BoardA : LBoard :=
  { red := { pieces := [⟨0, .board, -1, 12⟩, homePiece 1, homePiece 2, homePiece 3],
             piecesInHome := 3, piecesFinished := 0, score := 0 },
    blue := { pieces := [⟨0, .board, -1, 7⟩, homePiece 1, homePiece 2, homePiece 3],
              piecesInHome := 3, piecesFinished := 0, score := 0 },
    green := homeCS, yellow := homeCS }

/-- Board B: blue piece 0 on cell 2, red piece 0 on cell 5 with red score 10. -/
def c6BoardB : LBoard :=
  { red := { pieces := [⟨0, .board, -1, 5⟩, homePiece 1, homePiece 2, homePiece 3],
             piecesInHome := 3, piecesFinished := 0, score := 10 },
    blue := { pieces := [⟨0, .board, -1, 2⟩, homePiece 1, homePiece 2, homePiece 3],
              piecesInHome := 3, piecesFinished := 0, score := 0 },
    green := homeCS, yellow := homeCS }

/-- Claim C6 (counterexample): two concrete moves refute the claim.
On board A, blue moves 5 from cell 7 and lands on cell 12, which is
occupied by red; 12 is not in the claimed 8-cell safe set, so the claim
demands a capture, but the code's 12-cell `SAFE_ZONES` contains 12 and no
capture happens (red's piece stays on the board, `capturedPiece = none`).
On board B, blue moves 3 from cell 2 and captures red on cell 5; the
capturing player gains 5 as claimed, but the captured player's score stays
10 — the claimed −3 penalty is never applied. -/
theorem c6_counterexample :
    (applyLudoMove c6BoardA .blue 0 5).capturedPiece = none ∧
    ((applyLudoMove c6BoardA .blue 0 5).board.get .red).pieces[0]? =
      some ⟨0, .board, -1, 12⟩ ∧
    (12 : Int) ∉ ([0, 13, 26, 39, 8, 21, 34, 47] : List Int) ∧
    (classicMovePiece c6BoardB .blue 0 3).capturedPiece = some (.red, 0) ∧
    ((classicMovePiece c6BoardB .blue 0 3).board.get .red).score = 10 ∧
    ((classicMovePiece c6BoardB .blue 0 3).board.get .blue).score = 5 := by
  decide

theorem LBoard.get_set_self (b : LBoard) (c : LColor) (cs : ColorState) :
    (b.set c cs).get c = cs := by
  cases c <;> rfl

theorem LBoard.get_set_ne (b : LBoard) (c : LColor) (cs : ColorState)
    (c' : LColor) (h : c' ≠ c) : (b.set c cs).get c' = b.get c' := by
  cases c <;> cases c' <;> first | rfl | exact absurd rfl h

theorem captureColor_score (cs : ColorState) (np : Int) :
    (captureColor cs np).1.score = cs.score := rfl

theorem captureAll_get_ne (b : LBoard) (mover : LColor) (np : Int)
    (o : LColor) (h : o ≠ mover) :
    (captureAll b mover np).1.get o = (captureColor (b.get o) np).1 := by
  cases mover <;> cases o <;>
    first
      | exact absurd rfl h
      | simp [captureAll, LBoard.get, LBoard.set]

theorem captureAll_score (b : LBoard) (mover : LColor) (np : Int)
    (c' : LColor) :
    ((captureAll b mover np).1.get c').score = (b.get c').score := by
  cases mover <;> cases c' <;>
    simp [captureAll, captureColor, LBoard.get, LBoard.set]

theorem captureGo_pos (np : Int) (l : List LPiece) (pin : Int)
    (cap : Option Nat) (j : Nat) :
    (((captureGo np pin cap l).1)[j]?).map (fun p => p.pos) =
      (l[j]?).map (fun p =>
        if p.pos = .board ∧ p.boardPosition = np ∧ np ∉ SAFE_ZONES
        then PiecePos.home else p.pos) := by
  induction l generalizing pin cap j with
  | nil => simp [captureGo]
  | cons p ps ih =>
    unfold captureGo
    by_cases hc : p.pos = .board ∧ p.boardPosition = np ∧ np ∉ SAFE_ZONES
    · rw [if_pos hc]
      cases j with
      | zero => simp [hc]
      | succ j => simpa using ih (pin + 1) (some p.id) j
    · rw [if_neg hc]
      cases j with
      | zero => simp [hc]
      | succ j => simpa using ih pin cap j

/-- Board after the mover's piece is placed on the landing cell (before
the capture pass). -/
def ludoLandBoard (b : LBoard) (c : LColor) (i : Nat) (pc : LPiece)
    (np : Int) : LBoard :=
  b.set c
    { (b.get c) with pieces := (b.get c).pieces.set i { pc with boardPosition := np } }

/-- Reduction of `applyLudoMove` on the in-ring move branch. -/
theorem applyLudoMove_board_branch (b : LBoard) (c : LColor) (i : Nat)
    (d : Int) (pc : LPiece)
    (hd : ¬(d < 1 ∨ d > 6))
    (hpc : (b.get c).pieces[i]? = some pc)
    (hpos : pc.pos = .board)
    (hlt : ¬((pc.boardPosition + d).emod 52 ≥ homeEntry c + 51)) :
    applyLudoMove b c i d =
      { success := true,
        action := some
          (if (captureAll (ludoLandBoard b c i pc ((pc.boardPosition + d).emod 52))
              c ((pc.boardPosition + d).emod 52)).2.isSome
           then .CAPTURE else .MOVE),
        newPosition := (pc.boardPosition + d).emod 52,
        board := (captureAll (ludoLandBoard b c i pc ((pc.boardPosition + d).emod 52))
          c ((pc.boardPosition + d).emod 52)).1,
        capturedPiece :=
          (captureAll (ludoLandBoard b c i pc ((pc.boardPosition + d).emod 52))
            c ((pc.boardPosition + d).emod 52)).2 } := by
  obtain ⟨pid, ppos, phi, pbp⟩ := pc
  dsimp only at hpos
  subst hpos
  unfold applyLudoMove
  rw [if_neg hd, hpc]
  dsimp only
  rw [if_neg hlt]
  rfl

/-- `applyLudoMove` never changes any colour's score. -/
theorem applyLudoMove_score (b : LBoard) (c : LColor) (i : Nat) (d : Int)
    (c' : LColor) :
    ((applyLudoMove b c i d).board.get c').score = (b.get c').score := by
  have hset : ∀ cs : ColorState, cs.score = (b.get c).score →
      ((b.set c cs).get c').score = (b.get c').score := by
    intro cs hcs
    rcases eq_or_ne c' c with h | h
    · subst h
      rw [LBoard.get_set_self, hcs]
    · rw [LBoard.get_set_ne _ _ _ _ h]
  unfold applyLudoMove
  split
  · rfl
  · split
    · rfl
    · split
      · split
        · exact hset _ rfl
        · rfl
      · dsimp only
        split
        · exact hset _ rfl
        · rw [captureAll_score]
          exact hset _ rfl
      · rfl

/-- Score effect of `ClassicLudoService.movePiece`: the mover gains
`classicScoreChange action`; every other colour's score is untouched. -/
theorem classicMovePiece_score (b : LBoard) (c : LColor) (i : Nat) (d : Int)
    (hsucc : (applyLudoMove b c i d).success = true) :
    ((classicMovePiece b c i d).board.get c).score =
      (b.get c).score + classicScoreChange (applyLudoMove b c i d).action ∧
    (∀ c', c' ≠ c →
      ((classicMovePiece b c i d).board.get c').score = (b.get c').score) := by
  unfold classicMovePiece
  dsimp only
  simp only [hsucc, eq_self_iff_true, if_true]
  constructor
  · simp only [LBoard.get_set_self]
    rw [applyLudoMove_score]
  · intro c' hc
    simp only [LBoard.get_set_ne _ _ _ _ hc]
    rw [applyLudoMove_score]

/-- Claim C6 (amended): when a move lands the mover's piece on a cell `np`
occupied by an opposing piece, the opposing piece is captured (sent back
to home) if and only if `np` is not in the code's TWELVE-cell safe list
`SAFE_ZONES = [0,13,26,39,8,21,34,47,51,12,25,38]` (not the claimed
8-cell set); on the Classic Ludo path the capturing player's score
increases by 5 when a capture happened, and the captured player's score is
unchanged — no −3 penalty is ever applied. -/
theorem c6_capture_rule (b : LBoard) (mover o : LColor) (i j : Nat)
    (d np : Int) (pc q : LPiece)
    (hmo : o ≠ mover)
    (hd1 : 1 ≤ d) (hd6 : d ≤ 6)
    (hpc : (b.get mover).pieces[i]? = some pc)
    (hpos : pc.pos = .board)
    (hnp : np = (pc.boardPosition + d).emod 52)
    (hlt : np < homeEntry mover + 51)
    (hq : (b.get o).pieces[j]? = some q)
    (hqpos : q.pos = .board)
    (hqbp : q.boardPosition = np) :
    ((((applyLudoMove b mover i d).board.get o).pieces[j]?).map (fun p => p.pos) =
      some (if np ∈ SAFE_ZONES then PiecePos.board else PiecePos.home)) ∧
    ((classicMovePiece b mover i d).board.get mover).score =
      (b.get mover).score +
        (if (applyLudoMove b mover i d).capturedPiece.isSome then 5 else 0) ∧
    (∀ c', c' ≠ mover →
      ((classicMovePiece b mover i d).board.get c').score = (b.get c').score) := by
  subst hnp
  have hd : ¬(d < 1 ∨ d > 6) := by omega
  have hltn : ¬((pc.boardPosition + d).emod 52 ≥ homeEntry mover + 51) :=
    not_le.mpr hlt
  have hred := applyLudoMove_board_branch b mover i d pc hd hpc hpos hltn
  have hsucc : (applyLudoMove b mover i d).success = true := by
    rw [hred]
  have hscore := classicMovePiece_score b mover i d hsucc
  refine ⟨?_, ?_, hscore.2⟩
  · rw [hred]
    dsimp only
    rw [captureAll_get_ne _ _ _ o hmo]
    have hgo : (ludoLandBoard b mover i pc ((pc.boardPosition + d).emod 52)).get o =
        b.get o := by
      unfold ludoLandBoard
      exact LBoard.get_set_ne _ _ _ _ hmo
    rw [hgo]
    unfold captureColor
    dsimp only
    rw [captureGo_pos, hq]
    by_cases hmem : (pc.boardPosition + d).emod 52 ∈ SAFE_ZONES
    · simp only [Option.map_some']
      rw [if_pos hmem, if_neg (fun hcon => hcon.2.2 hmem), hqpos]
    · simp only [Option.map_some']
      rw [if_neg hmem, if_pos ⟨hqpos, hqbp, hmem⟩]
  · rw [hscore.1]
    congr 1
    rw [hred]
    dsimp only
    by_cases hcap : (captureAll
        (ludoLandBoard b mover i pc ((pc.boardPosition + d).emod 52)) mover
        ((pc.boardPosition + d).emod 52)).2.isSome
    · rw [if_pos hcap, if_pos hcap]
      rfl
    · rw [if_neg hcap, if_neg hcap]
      rfl

/-- Witness for `c6_capture_rule`: on `c6BoardB` blue moves 3 from cell 2
onto red's piece at cell 5; 5 is unsafe, so red's piece goes home and
blue gains 5 while red's score stays put. -/
theorem c6_capture_rule_witness :
    ((((applyLudoMove c6BoardB .blue 0 3).board.get .red).pieces[0]?).map
        (fun p => p.pos) =
      some (if (5 : Int) ∈ SAFE_ZONES then PiecePos.board else PiecePos.home)) ∧
    ((classicMovePiece c6BoardB .blue 0 3).board.get .blue).score =
      (c6BoardB.get .blue).score +
        (if (applyLudoMove c6BoardB .blue 0 3).capturedPiece.isSome then 5 else 0) ∧
    (∀ c', c' ≠ LColor.blue →
      ((classicMovePiece c6BoardB .blue 0 3).board.get c').score =
        (c6BoardB.get c').score) :=
  c6_capture_rule c6BoardB .blue .red 0 0 3 5 ⟨0, .board, -1, 2⟩
    ⟨0, .board, -1, 5⟩ (by decide) (by decide) (by decide) (by decide)
    (by decide) (by decide) (by decide) (by decide) (by decide) (by decide)

-- Memory engine (`MemoryGame.js`, first MemoryGameService).  Only the
-- state that the score/pairs invariant touches is modelled: card matched
-- flags (isFlipped resets play no role in the invariant), players with
-- score and lifelines, turn index, matchedPairs and totalPairs.

/-- One Memory card; `symbol` is the index of its emoji in the symbol
table. -/
structure MemCard where
  symbol : Nat
  isMatched : Bool
deriving DecidableEq, Repr

/-- One Memory player (score and lifelines are kept per player, mirroring
`gameState.scores[id]` / `gameState.lifelines[id]`, which the source keeps
in sync with `players`). -/
structure MemPlayer where
  id : String
  score : Nat
  lifelines : Nat
deriving DecidableEq, Repr

/-- The Memory room state used by `processMatch` / `handleTurnTimeout`. -/
structure MemState where
  players : List MemPlayer
  currentTurnIndex : Nat
  board : List MemCard
  matchedPairs : Nat
  totalPairs : Nat
deriving DecidableEq, Repr

/-- In-place update of the i-th list element. -/
def modifyAt {α : Type} (l : List α) (i : Nat) (f : α → α) : List α :=
  match l, i with
  | [], _ => []
  | x :: xs, 0 => f x :: xs
  | x :: xs, Nat.succ i => x :: modifyAt xs i f

/-- Sum of all players' scores. -/
def sumScores (s : MemState) : Nat :=
  (s.players.map (fun p => p.score)).sum

/-- Number of matched cards on the board. -/
def countMatched (b : List MemCard) : Nat :=
  b.countP (fun c => c.isMatched)

/-- `processMatch`, match branch: both selected cards become matched,
`matchedPairs` increments, the current player's score grows by 10 and the
turn stays. -/
def matchStep (s : MemState) (p1 p2 : Nat) : MemState :=
  match s.board[p1]?, s.board[p2]? with
  | some c1, some c2 =>
    { s with
      board := (s.board.set p1 { c1 with isMatched := true }).set p2
        { c2 with isMatched := true },
      matchedPairs := s.matchedPairs + 1,
      players := modifyAt s.players s.currentTurnIndex
        (fun pl => { pl with score := pl.score + 10 }) }
  | _, _ => s

/-- `processMatch`, mismatch branch (`nextTurn`): the revealed cards flip
back and the turn advances to the next player. -/
def mismatchStep (s : MemState) : MemState :=
  { s with currentTurnIndex := (s.currentTurnIndex + 1) % s.players.length }

/-- `handleTurnTimeout`: the current player loses a lifeline; on reaching
0 lifelines the player is removed together with their score entry and the
turn index is clamped; otherwise the turn advances. -/
def timeoutStep (s : MemState) : MemState :=
  match s.players[s.currentTurnIndex]? with
  | none => s
  | some c =>
    if 0 < c.lifelines then
      if c.lifelines - 1 = 0 then
        let players2 := s.players.filter (fun pl => pl.id != c.id)
        { s with
          players := players2,
          currentTurnIndex :=
            if players2.length ≤ s.currentTurnIndex then 0
            else s.currentTurnIndex }
      else
        let players1 := modifyAt s.players s.currentTurnIndex
          (fun pl => { pl with lifelines := pl.lifelines - 1 })
        { s with
          players := players1,
          currentTurnIndex := (s.currentTurnIndex + 1) % players1.length }
    else
      { s with currentTurnIndex := (s.currentTurnIndex + 1) % s.players.length }

/-- One accepted Memory room transition.  A match step carries the
selection protocol's guarantees from `selectCard`: two distinct positions,
both cards previously unmatched, equal symbols. -/
inductive MemStep : MemState → MemState → Prop where
  | matched (s : MemState) (p1 p2 : Nat) (c1 c2 : MemCard)
      (hne : p1 ≠ p2)
      (h1 : s.board[p1]? = some c1) (h2 : s.board[p2]? = some c2)
      (hm1 : c1.isMatched = false) (hm2 : c2.isMatched = false)
      (hsym : c1.symbol = c2.symbol) :
      MemStep s (matchStep s p1 p2)
  | mismatched (s : MemState) : MemStep s (mismatchStep s)
  | timeout (s : MemState) : MemStep s (timeoutStep s)

/-- The shape of a freshly started Memory room (`startGame`): zero scores,
3 lifelines, an unmatched board of `2 × totalPairs` cards, no matched
pairs. -/
def memInitOk (s : MemState) : Prop :=
  (∀ pl ∈ s.players, pl.score = 0 ∧ pl.lifelines = 3) ∧
  (∀ c ∈ s.board, c.isMatched = false) ∧
  s.matchedPairs = 0 ∧ s.board.length = 2 * s.totalPairs

/-- A 15-pair deck with all cards face down (the seeded shuffle only
permutes positions, which the invariant is insensitive to). -/
def memBoard30 : List MemCard :=
  (List.range 30).map (fun k => ⟨k / 2, false⟩)

/-- A fresh 3-player Memory room. -/
def c7s0 : MemState :=
  { players := [⟨"A", 0, 3⟩, ⟨"B", 0, 3⟩, ⟨"C", 0, 3⟩],
    currentTurnIndex := 0,
    board := memBoard30,
    matchedPairs := 0,
    totalPairs := 15 }

/-- After player A matches one pair and then times out three times (with
B and C timing out in between), A is eliminated and A's score entry is
deleted. -/
def c7sFinal : MemState :=
  timeoutStep (timeoutStep (timeoutStep (timeoutStep (timeoutStep
    (timeoutStep (timeoutStep (matchStep c7s0 0 1)))))))

/-- Claim C7 (counterexample): the state `c7sFinal` is reachable from a
fresh 3-player room, but the sum of the players' scores is 0 while
`matchedPairs = 1` — eliminating a player deletes their score entry, so
`Σ scores = 10 × matchedPairs` does not hold in every reachable state. -/
theorem c7_counterexample :
    memInitOk c7s0 ∧
    Relation.ReflTransGen MemStep c7s0 c7sFinal ∧
    sumScores c7sFinal ≠ 10 * c7sFinal.matchedPairs := by
  refine ⟨?_, ?_, by decide⟩
  · unfold memInitOk
    decide
  have h1 : MemStep c7s0 (matchStep c7s0 0 1) :=
    MemStep.matched c7s0 0 1 ⟨0, false⟩ ⟨0, false⟩ (by decide) (by decide)
      (by decide) (by decide) (by decide) (by decide)
  exact Relation.ReflTransGen.tail (Relation.ReflTransGen.tail
    (Relation.ReflTransGen.tail (Relation.ReflTransGen.tail
      (Relation.ReflTransGen.tail (Relation.ReflTransGen.tail
        (Relation.ReflTransGen.tail (Relation.ReflTransGen.single h1)
          (MemStep.timeout _)) (MemStep.timeout _)) (MemStep.timeout _))
      (MemStep.timeout _)) (MemStep.timeout _)) (MemStep.timeout _))
    (MemStep.timeout _)

theorem countP_set_true (l : List MemCard) (i : Nat) (c c' : MemCard)
    (hi : l[i]? = some c) (hc : c.isMatched = false)
    (hc2 : c'.isMatched = true) :
    countMatched (l.set i c') = countMatched l + 1 := by
  induction l generalizing i with
  | nil => simp at hi
  | cons x xs ih =>
    cases i with
    | zero =>
      simp at hi
      subst hi
      unfold countMatched
      simp [List.countP_cons, hc, hc2]
    | succ i =>
      simp at hi
      unfold countMatched at ih ⊢
      simp only [List.set_cons_succ, List.countP_cons]
      rw [ih i hi]
      omega

theorem sum_modifyAt_score_le (l : List MemPlayer) (i : Nat) :
    ((modifyAt l i (fun pl => { pl with score := pl.score + 10 })).map
      (fun p => p.score)).sum ≤ ((l.map (fun p => p.score)).sum) + 10 := by
  induction l generalizing i with
  | nil => simp [modifyAt]
  | cons x xs ih =>
    cases i with
    | zero => simp [modifyAt]; omega
    | succ i =>
      simp only [modifyAt, List.map_cons, List.sum_cons]
      have := ih i
      omega

theorem sum_modifyAt_lifelines (l : List MemPlayer) (i : Nat) :
    ((modifyAt l i (fun pl => { pl with lifelines := pl.lifelines - 1 })).map
      (fun p => p.score)).sum = (l.map (fun p => p.score)).sum := by
  induction l generalizing i with
  | nil => simp [modifyAt]
  | cons x xs ih =>
    cases i with
    | zero => simp [modifyAt]
    | succ i =>
      simp only [modifyAt, List.map_cons, List.sum_cons]
      rw [ih i]

theorem sum_filter_score_le (l : List MemPlayer) (p : MemPlayer → Bool) :
    (((l.filter p).map (fun x => x.score)).sum) ≤
      ((l.map (fun x => x.score)).sum) := by
  induction l with
  | nil => simp
  | cons x xs ih =>
    by_cases hx : p x
    · simp only [List.filter_cons, hx, if_true, List.map_cons, List.sum_cons]
      omega
    · simp only [List.filter_cons, hx, Bool.false_eq_true, if_false,
        List.map_cons, List.sum_cons]
      omega

/-- The Memory room inductive invariant. -/
def memInv (s : MemState) : Prop :=
  sumScores s ≤ 10 * s.matchedPairs ∧
  2 * s.matchedPairs = countMatched s.board ∧
  s.board.length = 2 * s.totalPairs

theorem memStep_inv {s t : MemState} (hst : MemStep s t) (hinv : memInv s) :
    memInv t := by
  obtain ⟨ha, hb, hc⟩ := hinv
  cases hst with
  | matched p1 p2 c1 c2 hne h1 h2 hm1 hm2 hsym =>
    unfold matchStep
    rw [h1, h2]
    dsimp only
    have hcount :
        countMatched ((s.board.set p1 { c1 with isMatched := true }).set p2
          { c2 with isMatched := true }) = countMatched s.board + 2 := by
      have h2b : (s.board.set p1 { c1 with isMatched := true })[p2]? = some c2 :=
        by rw [List.getElem?_set_ne hne]; exact h2
      rw [countP_set_true _ p2 c2 _ h2b hm2 rfl,
        countP_set_true _ p1 c1 _ h1 hm1 rfl]
    refine ⟨?_, ?_, ?_⟩
    · unfold sumScores at ha ⊢
      dsimp only
      have hle := sum_modifyAt_score_le s.players s.currentTurnIndex
      omega
    · dsimp only
      rw [hcount]
      omega
    · dsimp only
      simp only [List.length_set]
      exact hc
  | mismatched => exact ⟨ha, hb, hc⟩
  | timeout =>
    unfold timeoutStep
    cases hcur : s.players[s.currentTurnIndex]? with
    | none => exact ⟨ha, hb, hc⟩
    | some c =>
      dsimp only
      by_cases hl : 0 < c.lifelines
      · rw [if_pos hl]
        by_cases hz : c.lifelines - 1 = 0
        · rw [if_pos hz]
          refine ⟨?_, hb, hc⟩
          unfold sumScores at ha ⊢
          dsimp only
          exact le_trans (sum_filter_score_le s.players _) ha
        · rw [if_neg hz]
          refine ⟨?_, hb, hc⟩
          unfold sumScores at ha ⊢
          dsimp only
          rw [sum_modifyAt_lifelines]
          exact ha
      · rw [if_neg hl]
        exact ⟨ha, hb, hc⟩

/-- Claim C7 (amended): in every reachable state of a Memory room the sum
of the players' scores is at most `10 × matchedPairs` — equality holds
until a scoring player is eliminated (elimination deletes the player's
score entry, see the counterexample) — and `matchedPairs ≤ totalPairs`. -/
theorem c7_memory_invariant (s0 s : MemState) (h0 : memInitOk s0)
    (hr : Relation.ReflTransGen MemStep s0 s) :
    sumScores s ≤ 10 * s.matchedPairs ∧ s.matchedPairs ≤ s.totalPairs := by
  have hinv : memInv s := by
    induction hr with
    | refl =>
      obtain ⟨hp, hbd, hm, hlen⟩ := h0
      refine ⟨?_, ?_, ?_⟩
      · unfold sumScores
        have hz : (s0.players.map (fun p => p.score)).sum = 0 := by
          apply List.sum_eq_zero
          intro x hx
          obtain ⟨pl, hpl, hplx⟩ := List.mem_map.mp hx
          rw [← hplx]
          exact (hp pl hpl).1
        rw [hz]
        exact Nat.zero_le _
      · unfold countMatched
        have hz : s0.board.countP (fun c => c.isMatched) = 0 := by
          rw [List.countP_eq_zero]
          intro c hcmem
          simp [hbd c hcmem]
        rw [hz, hm]
      · exact hlen
    | tail hsteps hstep ih => exact memStep_inv hstep ih
  obtain ⟨ha, hb, hc⟩ := hinv
  refine ⟨ha, ?_⟩
  have := List.countP_le_length (fun c : MemCard => c.isMatched) (l := s.board)
  unfold countMatched at hb
  omega

/-- Witness for `c7_memory_invariant` at the fresh room `c7s0`. -/
theorem c7_memory_invariant_witness :
    sumScores c7s0 ≤ 10 * c7s0.matchedPairs ∧
    c7s0.matchedPairs ≤ c7s0.totalPairs :=
  c7_memory_invariant c7s0 c7s0 (by unfold memInitOk; decide)
    Relation.ReflTransGen.refl

-- Snakes & Ladders (`snakes_rollDice` handler and
-- `GameRoom.updatePlayerPosition`).

/-- The fixed `SNAKES` mapping. -/
def snakeTarget : Nat → Option Nat
  | 99 => some 21
  | 95 => some 75
  | 87 => some 24
  | 62 => some 19
  | 54 => some 34
  | 49 => some 11
  | 46 => some 25
  | 17 => some 7
  | _ => none

/-- The fixed `LADDERS` mapping. -/
def ladderTarget : Nat → Option Nat
  | 4 => some 14
  | 9 => some 31
  | 20 => some 38
  | 28 => some 84
  | 40 => some 59
  | 51 => some 67
  | 63 => some 81
  | 71 => some 91
  | _ => none

/-- Snake-then-ladder resolution of a landing cell (the source checks
`SNAKES[newPosition]` first, then `LADDERS[newPosition]`). -/
def relocate (n : Nat) : Nat :=
  match snakeTarget n with
  | some t => t
  | none =>
    match ladderTarget n with
    | some t => t
    | none => n

/-- `GameRoom.updatePlayerPosition`: at 100 or above the move wins
immediately; otherwise the snake/ladder relocation is applied and the win
flag re-checked on the final cell. -/
def updatePlayerPosition (np : Nat) : Nat × Bool :=
  if 100 ≤ np then (np, true)
  else (relocate np, decide (100 ≤ relocate np))

/-- The `snakes_rollDice` handler's movement: advance by the dice value,
staying in place when the landing cell would exceed 100, then resolve via
`updatePlayerPosition`. -/
def snakesRoll (p r : Nat) : Nat × Bool :=
  let np := if 100 < p + r then p else p + r
  updatePlayerPosition np

/-- A position a player can actually rest on mid-game: on the board, not
yet won, and not the source of a snake or ladder (landing on a source
relocates immediately, so sources are never resting positions). -/
def restingOk (p : Nat) : Prop := 1 ≤ p ∧ p ≤ 99 ∧ relocate p = p

theorem relocate_lt (n : Nat) (h : n < 100) : relocate n < 100 := by
  revert h
  revert n
  decide

theorem relocate_ge_one (n : Nat) (h1 : 1 ≤ n) (h2 : n < 100) :
    1 ≤ relocate n := by
  revert h1 h2
  revert n
  decide

theorem relocate_fix (n : Nat) (h : n < 100) :
    relocate (relocate n) = relocate n := by
  revert h
  revert n
  decide

/-- Rolling from a resting position keeps the result a resting position
(or wins), justifying the `restingOk` hypothesis of the claim theorem. -/
theorem snakesRoll_restingOk (p r : Nat) (hr1 : 1 ≤ r) (hr6 : r ≤ 6)
    (hp : restingOk p) (hw : (snakesRoll p r).2 = false) :
    restingOk (snakesRoll p r).1 := by
  obtain ⟨hp1, hp99, hfix⟩ := hp
  unfold snakesRoll updatePlayerPosition at hw ⊢
  by_cases hover : 100 < p + r
  · rw [if_pos hover] at hw ⊢
    rw [if_neg (by omega : ¬100 ≤ p)] at hw ⊢
    exact ⟨by rw [hfix]; omega, by rw [hfix]; omega, by rw [hfix, hfix]⟩
  · rw [if_neg hover] at hw ⊢
    by_cases h100 : 100 ≤ p + r
    · rw [if_pos h100] at hw
      simp at hw
    · rw [if_neg h100] at hw ⊢
      have hlt : p + r < 100 := by omega
      refine ⟨relocate_ge_one _ (by omega) hlt, ?_, relocate_fix _ hlt⟩
      have := relocate_lt (p + r) hlt
      omega

/-- Claim C8: for every roll `r ∈ 1..6` from a resting position `p`:
if `p + r` exceeds 100 the player stays at `p` (and does not win);
otherwise the player advances to `p + r`, relocated along the fixed
snake/ladder mapping when that cell is a source; and the move wins exactly
when the resulting cell is 100 (equivalently, exactly when `p + r = 100`,
since no snake or ladder leads to 100). -/
theorem c8_snakes_roll (p r : Nat) (hr1 : 1 ≤ r) (hr6 : r ≤ 6)
    (hp : restingOk p) :
    (100 < p + r → snakesRoll p r = (p, false)) ∧
    (p + r ≤ 100 → (snakesRoll p r).1 = relocate (p + r) ∧
      ((snakesRoll p r).2 = true ↔ p + r = 100)) ∧
    ((snakesRoll p r).2 = true ↔ (snakesRoll p r).1 = 100) := by
  obtain ⟨hp1, hp99, hfix⟩ := hp
  unfold snakesRoll updatePlayerPosition
  by_cases hover : 100 < p + r
  · rw [if_pos hover, if_neg (by omega : ¬100 ≤ p)]
    have hdec : decide (100 ≤ p) = false := decide_eq_false (by omega)
    rw [hfix, hdec]
    refine ⟨fun _ => rfl, fun hcon => absurd hcon (by omega), ?_⟩
    constructor
    · intro hfalse
      cases hfalse
    · intro hcon
      omega
  · rw [if_neg hover]
    by_cases h100 : 100 ≤ p + r
    · have heq : p + r = 100 := by omega
      rw [if_pos h100]
      refine ⟨fun hcon => absurd hcon (by omega), fun _ => ⟨?_, by simp [heq]⟩, by simp [heq]⟩
      rw [heq]
      rfl
    · rw [if_neg h100]
      have hlt : p + r < 100 := by omega
      have hrl := relocate_lt (p + r) hlt
      have hdec : decide (100 ≤ relocate (p + r)) = false :=
        decide_eq_false (by omega)
      rw [hdec]
      refine ⟨fun hcon => absurd hcon (by omega), fun _ => ⟨rfl, ?_⟩, ?_⟩
      · constructor
        · intro hfalse
          cases hfalse
        · intro hcon
          omega
      · constructor
        · intro hfalse
          cases hfalse
        · intro hcon
          omega

/-- Witness for `c8_snakes_roll`: from cell 2 a roll of 2 lands on the
ladder source 4 and climbs to 14 without winning; the same theorem applied
at cell 97 with a roll of 6 keeps the player in place. -/
theorem c8_snakes_roll_witness :
    ((100 < 2 + 2 → snakesRoll 2 2 = (2, false)) ∧
      (2 + 2 ≤ 100 → (snakesRoll 2 2).1 = relocate (2 + 2) ∧
        ((snakesRoll 2 2).2 = true ↔ 2 + 2 = 100)) ∧
      ((snakesRoll 2 2).2 = true ↔ (snakesRoll 2 2).1 = 100)) ∧
    (100 < 97 + 6 → snakesRoll 97 6 = (97, false)) :=
  ⟨c8_snakes_roll 2 2 (by decide) (by decide) ⟨by decide, by decide, by decide⟩,
   (c8_snakes_roll 97 6 (by decide) (by decide)
     ⟨by decide, by decide, by decide⟩).1⟩

-- Memory deck shuffle (`MemoryGame.createGameBoard`): three-pass
-- Fisher–Yates driven by a Lehmer generator seeded from the room id.

/-- `roomId.split('').reduce((a, b) => a + b.charCodeAt(0), 0)`. -/
def sumCharCodes (s : String) : Nat :=
  (s.data.map (fun ch => ch.toNat)).sum

/-- `seedValue = (seedValue * 16807) % 2147483647`. -/
def lcgNext (seed : Nat) : Nat := (seed * 16807) % 2147483647

/-- `[cards[i], cards[j]] = [cards[j], cards[i]]`. -/
def listSwap {α : Type} (l : List α) (i j : Nat) : List α :=
  match l[i]?, l[j]? with
  | some a, some b => (l.set i b).set j a
  | _, _ => l

/-- One card of the 30-card deck. -/
structure Card9 where
  id : Nat
  position : Nat
  symbol : String
deriving DecidableEq, Repr

/-- The fifteen emoji symbols of `createGameBoard`. -/
def memorySymbols : List String :=
  ["🎮", "🎯", "🎲", "🃏", "🎪", "🎨", "🎭", "💡", "🏸", "🏎️", "🏀", "⚽",
   "🏈", "🏓", "🎾"]

/-- The deck before shuffling: two cards per symbol with ids and positions
`2i` and `2i + 1`. -/
def initialCards : List Card9 :=
  ((List.range 15).map (fun i =>
    [⟨2 * i, 2 * i, memorySymbols.getD i ""⟩,
     ⟨2 * i + 1, 2 * i + 1, memorySymbols.getD i ""⟩])).flatten

/-- One Fisher–Yates pass, `for (let i = cards.length - 1; i > 0; i--)`.
`Math.floor(seededRandom() * (i + 1))` is embedded as the exact rational
floor `seed * (i + 1) / 2147483647`: the JS double computation agrees with
it because `seed * (i + 1) < 2^53` is exact and, 2147483647 being prime
and `0 < seed < 2147483647`, the exact quotient is never within double
rounding error of an integer. -/
def fyGo (cards : List Card9) (seed : Nat) : Nat → List Card9 × Nat
  | 0 => (cards, seed)
  | i + 1 =>
    let s2 := lcgNext seed
    let j := s2 * (i + 2) / 2147483647
    fyGo (listSwap cards (i + 1) j) s2 i

/-- `MemoryGame.createGameBoard`: derive the seed from the room id (a
falsy/empty room id falls back to `Date.now()`, modelled by `now`), run
three Fisher–Yates passes with the seed threaded through, then rewrite
each card's `position` to its index. -/
def createGameBoard (roomId : String) (now : Nat) : List Card9 :=
  let cards := initialCards
  let seed := if roomId ≠ "" then sumCharCodes roomId else now
  let r1 := fyGo cards seed (cards.length - 1)
  let r2 := fyGo r1.1 r1.2 (r1.1.length - 1)
  let r3 := fyGo r2.1 r2.2 (r2.1.length - 1)
  r3.1.mapIdx (fun idx c => { c with position := idx })

/-- Claim C9: the shuffle is deterministic in the room id — for every
non-empty room id, creating the board in two different runs (different
`Date.now()` values, the only run-varying input of `createGameBoard`)
yields identical card arrangements, agreeing symbol-by-symbol at every
position. -/
theorem c9_deterministic_shuffle (roomId : String) (h : roomId ≠ "")
    (now1 now2 : Nat) :
    createGameBoard roomId now1 = createGameBoard roomId now2 ∧
    ∀ k : Nat, ((createGameBoard roomId now1)[k]?).map (fun c => c.symbol) =
      ((createGameBoard roomId now2)[k]?).map (fun c => c.symbol) := by
  have hmain : createGameBoard roomId now1 = createGameBoard roomId now2 := by
    unfold createGameBoard
    rw [if_pos h, if_pos h]
  exact ⟨hmain, fun k => by rw [hmain]⟩

/-- Witness for `c9_deterministic_shuffle` at room id "g1" and two
different clock values. -/
theorem c9_deterministic_shuffle_witness :
    createGameBoard "g1" 0 = createGameBoard "g1" 999 :=
  (c9_deterministic_shuffle "g1" (by decide) 0 999).1
